import Mathlib

/-!
Shallow embedding of `src/github_workflow.py` (class `GithubWorkflow` plus the
pydantic models `CommitDetail` and `VersionDetails`).

Conventions of the embedding:
* Python exceptions that propagate (`ValueError` from `int`, `IndexError` from
  list indexing, uncaught `subprocess.CalledProcessError`) are modelled as
  `none` in an `Option` result.
* The two subprocess collaborators (`git tag`, `git log`) are modelled as
  explicit inputs of type `Except CalledProcessError String`: `ok raw` is the
  captured stdout, `error e` the nonzero-exit failure of `check_output`.
* Filesystem effects (`os.makedirs`, writing `version_details.json`) and the
  returned status message are I/O glue outside every claim; the pipeline
  function returns the `VersionDetails` record that would be serialized.
* `datetime.strptime` is kept as the raw date text in the `date` field: no
  claim depends on temporal semantics, only on the message/author/email text.
-/

/-- Remove every character satisfying `p` from both ends of a string. -/
def pyStripBy (p : Char → Bool) (s : String) : String :=
  String.mk (((s.toList.dropWhile p).reverse.dropWhile p).reverse)

/-- Python `str.strip(c)` for a single character argument: remove every copy of
`c` from both ends of the string (source uses `x.strip('v')`). -/
def pyStripChar (c : Char) (s : String) : String :=
  pyStripBy (· = c) s

/-- Python `str.strip()` with no argument: remove whitespace from both ends. -/
def pyStrip (s : String) : String :=
  pyStripBy Char.isWhitespace s

/-- Split a character list at every character satisfying `p`, keeping empty
fields (so a list with `n` separator characters yields `n + 1` fields). -/
def splitCharsBy (p : Char → Bool) : List Char → List (List Char)
  | [] => [[]]
  | x :: xs =>
    match splitCharsBy p xs with
    | [] => [[x]]
    | g :: gs => if p x then [] :: g :: gs else (x :: g) :: gs

/-- Python `str.split(sep)` for the single-character separators the source
uses (`'.'`, `'|'`, `'\n'`, `','`): empty fields are kept, and the empty
string yields `[""]`. -/
def pySplitOn (c : Char) (s : String) : List String :=
  (splitCharsBy (· = c) s.toList).map String.mk

/-- Value of a nonempty all-digit character list as a decimal numeral;
`none` otherwise. -/
def parseDigits (cs : List Char) : Option Nat :=
  if cs.isEmpty then none
  else if cs.all Char.isDigit then
    some (cs.foldl (fun n c => 10 * n + (c.toNat - 48)) 0)
  else none

/-- Python `int(s)` on the strings this program feeds it: an optional sign
followed by ASCII digits, `none` (a `ValueError`) otherwise.  (CPython's `int`
additionally tolerates surrounding whitespace, `_` separators and non-ASCII
digits; no string handled by this repository exercises those.) -/
def pyInt (s : String) : Option Int :=
  match s.toList with
  | '+' :: cs => (parseDigits cs).map Int.ofNat
  | '-' :: cs => (parseDigits cs).map (fun n => -(n : Int))
  | cs => (parseDigits cs).map Int.ofNat

/-- Apply a fallible function to every element; any failure aborts the whole
traversal (a Python exception escaping a `map`/comprehension/key computation). -/
def mapOrFail (f : α → Option β) : List α → Option (List β)
  | [] => some []
  | a :: as =>
    match f a with
    | none => none
    | some b =>
      match mapOrFail f as with
      | none => none
      | some bs => some (b :: bs)

/-- `tuple(map(int, x.strip('v').split('.')))` — the sort key of a tag
(line 71) and the numeric parts of a version (line 94).  `none` models the
`ValueError` raised by `int` on a component that is not an integer literal. -/
def parseTagKey (t : String) : Option (List Int) :=
  mapOrFail pyInt (pySplitOn '.' (pyStripChar 'v' t))

/-- Python `<=` on int tuples: lexicographic, a strict prefix comparing as
smaller. -/
def listLexLe : List Int → List Int → Bool
  | [], _ => true
  | _ :: _, [] => false
  | a :: as, b :: bs => if a < b then true else if b < a then false else listLexLe as bs

/-- Insert `x` after every leading element `y` with `le y x`.  Inserting each
element of a list, left to right, into an accumulator reproduces Python's
stable ascending `sorted` for a total preorder `le`. -/
def pyInsert (le : α → α → Bool) (x : α) : List α → List α
  | [] => [x]
  | y :: ys => if le y x then y :: pyInsert le x ys else x :: y :: ys

/-- Python `sorted(l, key=...)` once every element is paired with its key:
stable ascending insertion sort. -/
def pySorted (le : α → α → Bool) (l : List α) : List α :=
  l.foldl (fun acc x => pyInsert le x acc) []

/-- The mutable state of class `GithubWorkflow`: the three classification
counters.  Field order follows `__init__` (lines 22–25). -/
structure GithubWorkflow where
  minor_count : Nat
  patch_count : Nat
  breaking_count : Nat
  deriving DecidableEq

/-- `GithubWorkflow.__init__` (lines 22–25): all counters start at zero.
No method of the class ever assigns to them afterwards. -/
def GithubWorkflow.init : GithubWorkflow :=
  { minor_count := 0, patch_count := 0, breaking_count := 0 }

/-- Failure of `subprocess.check_output` (nonzero exit status). -/
structure CalledProcessError where
  returncode : Int

/-- Python `str.split()` with no separator: split on runs of whitespace,
producing no empty fields. -/
def pySplitWs (s : String) : List String :=
  ((splitCharsBy Char.isWhitespace s.toList).map String.mk).filter (fun p => p ≠ "")

/-- `fetch_tags` (lines 75–79): on success, `stdout.strip().split()`;
a `CalledProcessError` is caught and turned into the empty list. -/
def fetch_tags (gitTagOutput : Except CalledProcessError String) : List String :=
  match gitTagOutput with
  | Except.ok out => pySplitWs (pyStrip out)
  | Except.error _ => []

/-- `get_current_version` (lines 68–73), with `tags` the list returned by
`self.fetch_tags()`.  A nonempty list is key-sorted and the last element
returned; the empty list yields `'v0.0.0'`.  Keys are computed for every
element before sorting (as CPython's `sorted(key=...)` does), so a single
unparseable tag aborts the whole call with a `ValueError` (`none`). -/
def get_current_version (tags : List String) : Option String :=
  if tags.isEmpty then some "v0.0.0"
  else
    match mapOrFail (fun t => (parseTagKey t).map (fun k => (k, t))) tags with
    | none => none
    | some keyed =>
      ((pySorted (fun p q => listLexLe p.1 q.1) keyed).getLast?).map Prod.snd

/-- pydantic model `CommitDetail` (lines 7–11); `date` keeps the raw text of
the fourth `|`-field (its `strptime` parse carries no information any claim
uses). -/
structure CommitDetail where
  message : String
  author : String
  email : String
  date : String
  deriving DecidableEq

/-- One line of `git log --pretty=format:%H|%an|%ae|%ad|%s` turned into a
`CommitDetail` (lines 85–90): `split('|')` indices 4, 1, 2, 3; a missing
index is an `IndexError` (`none`). -/
def parseCommitLine (line : String) : Option CommitDetail :=
  let ps := pySplitOn '|' line
  match ps[4]?, ps[1]?, ps[2]?, ps[3]? with
  | some m, some a, some e, some d =>
    some { message := m, author := a, email := e, date := d }
  | _, _, _, _ => none

/-- `fetch_commit_messages` (lines 81–91): the raw log is stripped, split into
lines, empty lines dropped, and each remaining line parsed.  The subprocess
call is not wrapped in `try`, so a `CalledProcessError` propagates (`none`). -/
def fetch_commit_messages (gitLogOutput : Except CalledProcessError String) :
    Option (List CommitDetail) :=
  match gitLogOutput with
  | Except.error _ => none
  | Except.ok raw =>
    mapOrFail parseCommitLine ((pySplitOn '\n' (pyStrip raw)).filter (fun l => l ≠ ""))

/-- The mutation of `parts` in `determine_next_version` (lines 95–103).  Each
branch indexes `parts[0]`/`parts[1]`/`parts[2]`, so on a list shorter than
three the branch raises `IndexError` (`none`); the final branch touches
nothing. -/
def bumpParts (w : GithubWorkflow) (parts : List Int) : Option (List Int) :=
  if w.breaking_count > 0 then
    match parts with
    | p0 :: _ :: _ :: rest => some ((p0 + 1) :: 0 :: 0 :: rest)
    | _ => none
  else if w.minor_count > 0 then
    match parts with
    | p0 :: p1 :: _ :: rest => some (p0 :: (p1 + 1) :: 0 :: rest)
    | _ => none
  else if w.patch_count > 0 then
    match parts with
    | p0 :: p1 :: p2 :: rest => some (p0 :: p1 :: (p2 + 1) :: rest)
    | _ => none
  else some parts

/-- Python `sep.join(strings)`. -/
def pyJoin (sep : String) : List String → String
  | [] => ""
  | [x] => x
  | x :: y :: xs => x ++ sep ++ pyJoin sep (y :: xs)

/-- `'v' + '.'.join(map(str, parts))` (line 104). -/
def renderVersion (parts : List Int) : String :=
  "v" ++ pyJoin "." (parts.map (fun p => toString p))

/-- `determine_next_version` (lines 93–104): parse the current version's
numeric parts, apply the counter-driven bump, re-render with a `v` prefix. -/
def determine_next_version (w : GithubWorkflow) (current_version : String) :
    Option String :=
  (parseTagKey current_version).bind (fun parts => (bumpParts w parts).map renderVersion)

/-- `determine_version_bump` (lines 106–113). -/
def determine_version_bump (w : GithubWorkflow) : String :=
  if w.breaking_count > 0 then "Major"
  else if w.minor_count > 0 then "Minor"
  else if w.patch_count > 0 then "Patch"
  else "None"

/-- pydantic model `VersionDetails` (lines 13–19). -/
structure VersionDetails where
  current_version : String
  next_version : String
  bump_type : String
  commit_messages : List CommitDetail
  tags : List String
  pr_labels : List String
  deriving DecidableEq

/-- `write_version_details_to_file` (lines 49–66) up to I/O: builds the
`VersionDetails` record that line 65 serializes.  `branch_name` only selects
the output path and is dropped; the two `self.fetch_tags()` calls (lines 50
and 58) are modelled by the same collaborator output. -/
def write_version_details_to_file (w : GithubWorkflow)
    (gitTagOutput gitLogOutput : Except CalledProcessError String)
    (pr_labels : String) : Option VersionDetails := do
  let current_version ← get_current_version (fetch_tags gitTagOutput)
  let commit_messages ← fetch_commit_messages gitLogOutput
  let next_version ← determine_next_version w current_version
  some { current_version := current_version
         next_version := next_version
         bump_type := determine_version_bump w
         commit_messages := commit_messages
         tags := fetch_tags gitTagOutput
         pr_labels := pySplitOn ',' pr_labels }

/-- Spec §3's validity condition on a tag, used only to state claims: the tag
parses (under the program's own parser) as exactly three integers. -/
def validTag (t : String) : Bool :=
  match parseTagKey t with
  | some k => k.length == 3
  | none => false

/-! ### Helper lemmas: the lexicographic key order -/

theorem listLexLe_refl (l : List Int) : listLexLe l l = true := by
  induction l with
  | nil => rfl
  | cons a as ih => simp [listLexLe, ih]

theorem listLexLe_total (l₁ l₂ : List Int) :
    listLexLe l₁ l₂ = true ∨ listLexLe l₂ l₁ = true := by
  induction l₁ generalizing l₂ with
  | nil => exact Or.inl rfl
  | cons a as ih =>
    cases l₂ with
    | nil => exact Or.inr rfl
    | cons b bs =>
      rcases lt_trichotomy a b with h | h | h
      · left; simp [listLexLe, h]
      · subst h
        rcases ih bs with h2 | h2
        · left; simp [listLexLe, h2]
        · right; simp [listLexLe, h2]
      · right; simp [listLexLe, h]

theorem listLexLe_trans : ∀ {l₁ l₂ l₃ : List Int}, listLexLe l₁ l₂ = true →
    listLexLe l₂ l₃ = true → listLexLe l₁ l₃ = true
  | [], _, _, _, _ => rfl
  | _ :: _, [], _, h₁, _ => by simp [listLexLe] at h₁
  | _ :: _, _ :: _, [], _, h₂ => by simp [listLexLe] at h₂
  | a :: as, b :: bs, c :: cs, h₁, h₂ => by
    simp only [listLexLe] at h₁ h₂ ⊢
    rcases lt_trichotomy a b with hab | hab | hab
    · rcases lt_trichotomy b c with hbc | hbc | hbc
      · simp [lt_trans hab hbc]
      · subst hbc; simp [hab]
      · rw [if_neg (by omega), if_pos hbc] at h₂; exact Bool.noConfusion h₂
    · subst hab
      rcases lt_trichotomy a c with hac | hac | hac
      · simp [hac]
      · subst hac
        rw [if_neg (lt_irrefl a), if_neg (lt_irrefl a)] at h₁ h₂ ⊢
        exact listLexLe_trans h₁ h₂
      · rw [if_neg (by omega), if_pos hac] at h₂; exact Bool.noConfusion h₂
    · rw [if_neg (by omega), if_pos hab] at h₁; exact Bool.noConfusion h₁

/-! ### Helper lemmas: stable insertion sort -/

theorem mem_pyInsert (le : α → α → Bool) (x z : α) :
    ∀ l : List α, z ∈ pyInsert le x l ↔ z = x ∨ z ∈ l
  | [] => by simp [pyInsert]
  | y :: ys => by
    by_cases h : le y x = true
    · simp only [pyInsert, if_pos h, List.mem_cons, mem_pyInsert le x z ys]
      tauto
    · simp only [pyInsert, if_neg h, List.mem_cons]

theorem pyInsert_perm (le : α → α → Bool) (x : α) :
    ∀ l : List α, (pyInsert le x l).Perm (x :: l)
  | [] => List.Perm.refl _
  | y :: ys => by
    by_cases h : le y x = true
    · simp only [pyInsert, if_pos h]
      exact ((pyInsert_perm le x ys).cons y).trans (List.Perm.swap x y ys)
    · simp only [pyInsert, if_neg h]
      exact List.Perm.refl _

theorem pySorted_perm_aux (le : α → α → Bool) :
    ∀ (l acc : List α),
      (List.foldl (fun acc x => pyInsert le x acc) acc l).Perm (l ++ acc)
  | [], acc => by simp
  | x :: xs, acc => by
    simp only [List.foldl_cons, List.cons_append]
    exact ((pySorted_perm_aux le xs (pyInsert le x acc)).trans
      (List.Perm.append_left xs (pyInsert_perm le x acc))).trans List.perm_middle

theorem pySorted_perm (le : α → α → Bool) (l : List α) : (pySorted le l).Perm l := by
  simpa using pySorted_perm_aux le l []

theorem pairwise_pyInsert (le : α → α → Bool)
    (total : ∀ a b, le a b = true ∨ le b a = true)
    (htrans : ∀ a b c, le a b = true → le b c = true → le a c = true) (x : α) :
    ∀ l : List α, l.Pairwise (fun a b => le a b = true) →
      (pyInsert le x l).Pairwise (fun a b => le a b = true)
  | [], _ => by simp [pyInsert]
  | y :: ys, h => by
    rw [List.pairwise_cons] at h
    obtain ⟨hy, hys⟩ := h
    by_cases hle : le y x = true
    · simp only [pyInsert, if_pos hle]
      rw [List.pairwise_cons]
      refine ⟨?_, pairwise_pyInsert le total htrans x ys hys⟩
      intro z hz
      rcases (mem_pyInsert le x z ys).1 hz with rfl | hz'
      · exact hle
      · exact hy z hz'
    · simp only [pyInsert, if_neg hle]
      have hxy : le x y = true := (total y x).resolve_left hle
      rw [List.pairwise_cons]
      refine ⟨?_, List.pairwise_cons.2 ⟨hy, hys⟩⟩
      intro z hz
      rcases List.mem_cons.1 hz with rfl | hz'
      · exact hxy
      · exact htrans x y z hxy (hy z hz')

theorem pairwise_pySorted (le : α → α → Bool)
    (total : ∀ a b, le a b = true ∨ le b a = true)
    (htrans : ∀ a b c, le a b = true → le b c = true → le a c = true)
    (l : List α) : (pySorted le l).Pairwise (fun a b => le a b = true) := by
  suffices h : ∀ (l acc : List α), acc.Pairwise (fun a b => le a b = true) →
      (List.foldl (fun acc x => pyInsert le x acc) acc l).Pairwise
        (fun a b => le a b = true) from h l [] (by simp)
  intro l
  induction l with
  | nil => intro acc h; simpa using h
  | cons x xs ih =>
    intro acc h
    simp only [List.foldl_cons]
    exact ih _ (pairwise_pyInsert le total htrans x acc h)

theorem pairwise_getLast_le {R : α → α → Prop} :
    ∀ {l : List α} {m : α}, l.Pairwise R → l.getLast? = some m →
      ∀ x ∈ l, x = m ∨ R x m
  | [], _, _, h, _, _ => by simp at h
  | [a], _, _, h, x, hx => by
    simp only [List.getLast?_singleton, Option.some.injEq] at h
    simp only [List.mem_singleton] at hx
    exact Or.inl (hx.trans h)
  | a :: b :: t, m, hp, h, x, hx => by
    rw [List.getLast?_cons_cons] at h
    rw [List.pairwise_cons] at hp
    obtain ⟨ha, hrest⟩ := hp
    rcases List.mem_cons.1 hx with rfl | hx'
    · exact Or.inr (ha m (List.mem_of_getLast?_eq_some h))
    · exact pairwise_getLast_le hrest h x hx'

/-! ### Helper lemmas: fallible traversal -/

theorem mapOrFail_eq_none {f : α → Option β} {l : List α} {a : α}
    (ha : a ∈ l) (hf : f a = none) : mapOrFail f l = none := by
  induction l with
  | nil => cases ha
  | cons x xs ih =>
    rcases List.mem_cons.1 ha with rfl | hmem
    · simp [mapOrFail, hf]
    · cases hfx : f x with
      | none => simp [mapOrFail, hfx]
      | some b => simp [mapOrFail, hfx, ih hmem]

theorem mapOrFail_forall_mem {f : α → Option β} :
    ∀ {l : List α} {ys : List β}, mapOrFail f l = some ys →
      ∀ a ∈ l, ∃ y, f a = some y ∧ y ∈ ys
  | [], _, _, a, ha => by cases ha
  | x :: xs, ys, h, a, ha => by
    cases hfx : f x with
    | none => simp [mapOrFail, hfx] at h
    | some b =>
      cases hrest : mapOrFail f xs with
      | none => simp [mapOrFail, hfx, hrest] at h
      | some bs =>
        simp only [mapOrFail, hfx, hrest, Option.some.injEq] at h
        subst h
        rcases List.mem_cons.1 ha with rfl | hmem
        · exact ⟨b, hfx, List.mem_cons_self b bs⟩
        · obtain ⟨y, hy, hyin⟩ := mapOrFail_forall_mem hrest a hmem
          exact ⟨y, hy, List.mem_cons_of_mem b hyin⟩

theorem mapOrFail_mem_rev {f : α → Option β} :
    ∀ {l : List α} {ys : List β}, mapOrFail f l = some ys →
      ∀ y ∈ ys, ∃ a ∈ l, f a = some y
  | [], ys, h, y, hy => by
    simp only [mapOrFail, Option.some.injEq] at h
    subst h; cases hy
  | x :: xs, ys, h, y, hy => by
    cases hfx : f x with
    | none => simp [mapOrFail, hfx] at h
    | some b =>
      cases hrest : mapOrFail f xs with
      | none => simp [mapOrFail, hfx, hrest] at h
      | some bs =>
        simp only [mapOrFail, hfx, hrest, Option.some.injEq] at h
        subst h
        rcases List.mem_cons.1 hy with rfl | hmem
        · exact ⟨x, List.mem_cons_self x xs, hfx⟩
        · obtain ⟨a, ha, hfa⟩ := mapOrFail_mem_rev hrest y hmem
          exact ⟨a, List.mem_cons_of_mem x ha, hfa⟩

theorem mapOrFail_isSome {f : α → Option β} :
    ∀ {l : List α}, (∀ a ∈ l, (f a).isSome = true) → ∃ ys, mapOrFail f l = some ys
  | [], _ => ⟨[], rfl⟩
  | x :: xs, h => by
    cases hfx : f x with
    | none => exact absurd (hfx ▸ h x (List.mem_cons_self x xs)) (by simp)
    | some b =>
      obtain ⟨bs, hbs⟩ := mapOrFail_isSome (fun a ha => h a (List.mem_cons_of_mem x ha))
      exact ⟨b :: bs, by simp [mapOrFail, hfx, hbs]⟩

theorem mapOrFail_ne_nil {f : α → Option β} {l : List α} {ys : List β}
    (h : mapOrFail f l = some ys) (hl : l ≠ []) : ys ≠ [] := by
  cases l with
  | nil => exact absurd rfl hl
  | cons x xs =>
    cases hfx : f x with
    | none => simp [mapOrFail, hfx] at h
    | some b =>
      cases hrest : mapOrFail f xs with
      | none => simp [mapOrFail, hfx, hrest] at h
      | some bs =>
        simp only [mapOrFail, hfx, hrest, Option.some.injEq] at h
        subst h; simp

/-! ### Claim theorems -/

/-- Claim C1: the spec's concrete scenario says that with current version
`v1.2.3` and commits `feat: add X` / `fix: typo` the pipeline classifies
`{breaking:0, minor:1, patch:1}` and produces bump `Minor`, next `v1.3.0`.
The code never increments any counter (they stay at their `__init__` zeros),
so the pipeline actually reports bump `None` and next version `v1.2.3`: this
theorem evaluates the embedded pipeline at exactly that input. -/
theorem c1_feat_fix_scenario_yields_none :
    (write_version_details_to_file GithubWorkflow.init (Except.ok "v1.2.3")
        (Except.ok "a1|Alice|alice@x.io|Mon Jan 01 12:00:00 2024 +0000|feat: add X\na2|Bob|bob@x.io|Mon Jan 01 13:00:00 2024 +0000|fix: typo")
        "").map (fun vd => (vd.current_version, vd.bump_type, vd.next_version)) =
      some ("v1.2.3", "None", "v1.2.3") := by decide

/-- Claim C2: the spec says any commit sequence containing a breaking-marked
message yields bump class `Major`.  No code path inspects commit text or
increments `breaking_count`, so even a run whose only commit is
`feat!: drop legacy API` reports `None`: this theorem evaluates the embedded
pipeline at that input. -/
theorem c2_breaking_commit_yields_none :
    (write_version_details_to_file GithubWorkflow.init (Except.ok "v1.2.3")
        (Except.ok "c9|Carol|carol@x.io|Tue Jan 02 09:00:00 2024 +0000|feat!: drop legacy API")
        "").map (fun vd => vd.bump_type) = some "None" := by decide

/-- Claim C3, counterexample: a run whose only tag is `v01.2.3` has
`current_version = "v01.2.3"` but `next_version = "v1.2.3"`: with all
counters zero `determine_next_version` still re-renders the parsed parts, so
it is not the identity on every input version string. -/
theorem c3_counterexample_non_canonical_tag :
    (write_version_details_to_file GithubWorkflow.init (Except.ok "v01.2.3")
        (Except.ok "") "").map (fun vd => (vd.current_version, vd.next_version)) =
      some ("v01.2.3", "v1.2.3") ∧ ("v1.2.3" : String) ≠ "v01.2.3" := by decide

/-- Claim C3, amended: for the freshly constructed workflow (counters all
zero, never incremented), `determine_version_bump` returns `"None"` and
`determine_next_version` leaves the parsed numeric parts untouched, returning
their canonical re-rendering — hence the input itself whenever the input is
canonically rendered. -/
theorem c3_amended_counters_never_incremented (cv : String) (parts : List Int)
    (h : parseTagKey cv = some parts) :
    determine_version_bump GithubWorkflow.init = "None" ∧
    bumpParts GithubWorkflow.init parts = some parts ∧
    determine_next_version GithubWorkflow.init cv = some (renderVersion parts) := by
  refine ⟨rfl, rfl, ?_⟩
  unfold determine_next_version
  rw [h]
  rfl

/-- Concrete instance of the amended claim C3 at the canonical version
`v1.2.3`, where the output equals the input exactly. -/
theorem c3_amended_witness :
    parseTagKey "v1.2.3" = some [1, 2, 3] ∧
    determine_version_bump GithubWorkflow.init = "None" ∧
    determine_next_version GithubWorkflow.init "v1.2.3" = some "v1.2.3" := by
  have h := c3_amended_counters_never_incremented "v1.2.3" [1, 2, 3] (by decide)
  exact ⟨by decide, h.1, h.2.2.trans (by decide)⟩

/-- Claim C9: when the `git tag` collaborator fails, `fetch_tags` swallows
the `CalledProcessError` and returns the empty list, and `get_current_version`
on that result falls back to `v0.0.0`. -/
theorem c9_fetch_tags_failure_recovered (e : CalledProcessError) :
    fetch_tags (Except.error e) = [] ∧
    get_current_version (fetch_tags (Except.error e)) = some "v0.0.0" :=
  ⟨rfl, rfl⟩

/-- Claim C6: for a current version parsing to parts `[a, b, c]` and any
counter state, the calculator follows the priority rule of
`determine_next_version`/`determine_version_bump`: breaking ⇒ `(a+1, 0, 0)` /
`Major`; else minor ⇒ `(a, b+1, 0)` / `Minor`; else patch ⇒ `(a, b, c+1)` /
`Patch`; else parts unchanged / `None`. -/
theorem c6_calculator_priority_rule (w : GithubWorkflow) (cv : String)
    (a b c : Int) (h : parseTagKey cv = some [a, b, c]) :
    determine_next_version w cv = (bumpParts w [a, b, c]).map renderVersion ∧
    (0 < w.breaking_count →
      bumpParts w [a, b, c] = some [a + 1, 0, 0] ∧ determine_version_bump w = "Major") ∧
    (w.breaking_count = 0 → 0 < w.minor_count →
      bumpParts w [a, b, c] = some [a, b + 1, 0] ∧ determine_version_bump w = "Minor") ∧
    (w.breaking_count = 0 → w.minor_count = 0 → 0 < w.patch_count →
      bumpParts w [a, b, c] = some [a, b, c + 1] ∧ determine_version_bump w = "Patch") ∧
    (w.breaking_count = 0 → w.minor_count = 0 → w.patch_count = 0 →
      bumpParts w [a, b, c] = some [a, b, c] ∧ determine_version_bump w = "None") := by
  refine ⟨?_, ?_, ?_, ?_, ?_⟩
  · unfold determine_next_version
    rw [h]
    rfl
  · intro hb
    constructor
    · unfold bumpParts; rw [if_pos hb]
    · unfold determine_version_bump; rw [if_pos hb]
  · intro hb hm
    constructor
    · unfold bumpParts; rw [if_neg (by omega), if_pos hm]
    · unfold determine_version_bump; rw [if_neg (by omega), if_pos hm]
  · intro hb hm hp
    constructor
    · unfold bumpParts; rw [if_neg (by omega), if_neg (by omega), if_pos hp]
    · unfold determine_version_bump; rw [if_neg (by omega), if_neg (by omega), if_pos hp]
  · intro hb hm hp
    constructor
    · unfold bumpParts; rw [if_neg (by omega), if_neg (by omega), if_neg (by omega)]
    · unfold determine_version_bump; rw [if_neg (by omega), if_neg (by omega), if_neg (by omega)]

/-- Concrete instance of claim C6: one pending breaking change on `v1.2.3`
gives `v2.0.0` and bump `Major`. -/
theorem c6_witness :
    parseTagKey "v1.2.3" = some [1, 2, 3] ∧
    0 < GithubWorkflow.breaking_count ⟨0, 0, 1⟩ ∧
    bumpParts ⟨0, 0, 1⟩ [1, 2, 3] = some [2, 0, 0] ∧
    determine_version_bump ⟨0, 0, 1⟩ = "Major" := by
  have h := (c6_calculator_priority_rule ⟨0, 0, 1⟩ "v1.2.3" 1 2 3 (by decide)).2.1
    (by decide)
  exact ⟨by decide, by decide, h.1.trans (by decide), h.2⟩

/-- Claim C7: whatever the counter state, the bumped parts are lexicographically
greater than or equal to the current parts `[a, b, c]`, with equality exactly
when the bump class is `"None"`; the rendered next version is the rendering of
those parts. -/
theorem c7_next_version_ge_current (w : GithubWorkflow) (cv : String)
    (a b c : Int) (h : parseTagKey cv = some [a, b, c]) :
    ∃ parts, bumpParts w [a, b, c] = some parts ∧
      determine_next_version w cv = some (renderVersion parts) ∧
      listLexLe [a, b, c] parts = true ∧
      (parts = [a, b, c] ↔ determine_version_bump w = "None") := by
  have hnv : determine_next_version w cv = (bumpParts w [a, b, c]).map renderVersion := by
    unfold determine_next_version
    rw [h]
    rfl
  rcases Nat.eq_zero_or_pos w.breaking_count with hb | hb
  · rcases Nat.eq_zero_or_pos w.minor_count with hm | hm
    · rcases Nat.eq_zero_or_pos w.patch_count with hp | hp
      · -- no counter set: identity, bump "None"
        have hbp : bumpParts w [a, b, c] = some [a, b, c] := by
          unfold bumpParts
          rw [if_neg (by omega), if_neg (by omega), if_neg (by omega)]
        have hbump : determine_version_bump w = "None" := by
          unfold determine_version_bump
          rw [if_neg (by omega), if_neg (by omega), if_neg (by omega)]
        exact ⟨[a, b, c], hbp, by rw [hnv, hbp]; rfl, listLexLe_refl _,
          ⟨fun _ => hbump, fun _ => rfl⟩⟩
      · -- patch bump
        have hbp : bumpParts w [a, b, c] = some [a, b, c + 1] := by
          unfold bumpParts
          rw [if_neg (by omega), if_neg (by omega), if_pos hp]
        have hbump : determine_version_bump w = "Patch" := by
          unfold determine_version_bump
          rw [if_neg (by omega), if_neg (by omega), if_pos hp]
        refine ⟨[a, b, c + 1], hbp, by rw [hnv, hbp]; rfl, ?_, ?_⟩
        · show (if a < a then true else if a < a then false else
            if b < b then true else if b < b then false else
            if c < c + 1 then true else if c + 1 < c then false else listLexLe [] []) = true
          rw [if_neg (lt_irrefl a), if_neg (lt_irrefl a), if_neg (lt_irrefl b),
            if_neg (lt_irrefl b), if_pos (by omega)]
        · constructor
          · intro heq
            have : c + 1 = c := by
              have := List.cons.inj heq
              have := List.cons.inj this.2
              have := List.cons.inj this.2
              exact this.1
            omega
          · intro hn
            rw [hbump] at hn
            exact absurd hn (by decide)
    · -- minor bump
      have hbp : bumpParts w [a, b, c] = some [a, b + 1, 0] := by
        unfold bumpParts
        rw [if_neg (by omega), if_pos hm]
      have hbump : determine_version_bump w = "Minor" := by
        unfold determine_version_bump
        rw [if_neg (by omega), if_pos hm]
      refine ⟨[a, b + 1, 0], hbp, by rw [hnv, hbp]; rfl, ?_, ?_⟩
      · show (if a < a then true else if a < a then false else
          if b < b + 1 then true else if b + 1 < b then false else
          if c < 0 then true else if 0 < c then false else listLexLe [] []) = true
        rw [if_neg (lt_irrefl a), if_neg (lt_irrefl a), if_pos (by omega)]
      · constructor
        · intro heq
          have : b + 1 = b := by
            have := List.cons.inj heq
            have := List.cons.inj this.2
            exact this.1
          omega
        · intro hn
          rw [hbump] at hn
          exact absurd hn (by decide)
  · -- breaking bump
    have hbp : bumpParts w [a, b, c] = some [a + 1, 0, 0] := by
      unfold bumpParts
      rw [if_pos hb]
    have hbump : determine_version_bump w = "Major" := by
      unfold determine_version_bump
      rw [if_pos hb]
    refine ⟨[a + 1, 0, 0], hbp, by rw [hnv, hbp]; rfl, ?_, ?_⟩
    · show (if a < a + 1 then true else if a + 1 < a then false else
        if b < 0 then true else if 0 < b then false else
        if c < 0 then true else if 0 < c then false else listLexLe [] []) = true
      rw [if_pos (by omega)]
    · constructor
      · intro heq
        have : a + 1 = a := (List.cons.inj heq).1
        omega
      · intro hn
        rw [hbump] at hn
        exact absurd hn (by decide)

/-- Concrete instance of claim C7: with one pending minor change on `v1.2.3`
the bumped parts `[1, 3, 0]` are lexicographically above `[1, 2, 3]` and the
bump class is not `"None"`. -/
theorem c7_witness :
    parseTagKey "v1.2.3" = some [1, 2, 3] ∧
    (∃ parts, bumpParts ⟨1, 0, 0⟩ [1, 2, 3] = some parts ∧
      determine_next_version ⟨1, 0, 0⟩ "v1.2.3" = some (renderVersion parts) ∧
      listLexLe [1, 2, 3] parts = true ∧
      (parts = [1, 2, 3] ↔ determine_version_bump ⟨1, 0, 0⟩ = "None")) :=
  ⟨by decide, c7_next_version_ge_current ⟨1, 0, 0⟩ "v1.2.3" 1 2 3 (by decide)⟩

/-- Claim C8: permuting the fetched commit sequence never changes the bump
class or the next version the pipeline reports — the counters (and hence the
two outputs) do not depend on the commit list at all. -/
theorem c8_bump_order_independent (w : GithubWorkflow)
    (gitTagOutput log₁ log₂ : Except CalledProcessError String) (labels : String)
    (cm₁ cm₂ : List CommitDetail)
    (h₁ : fetch_commit_messages log₁ = some cm₁)
    (h₂ : fetch_commit_messages log₂ = some cm₂)
    (hperm : cm₁.Perm cm₂) :
    (write_version_details_to_file w gitTagOutput log₁ labels).map
        (fun vd => (vd.bump_type, vd.next_version)) =
      (write_version_details_to_file w gitTagOutput log₂ labels).map
        (fun vd => (vd.bump_type, vd.next_version)) := by
  unfold write_version_details_to_file
  cases hcv : get_current_version (fetch_tags gitTagOutput) with
  | none => rfl
  | some cv =>
    rw [h₁, h₂]
    simp only [Option.bind_eq_bind, Option.some_bind]
    cases determine_next_version w cv with
    | none => rfl
    | some nv => rfl

/-- Concrete instance of claim C8: the two-commit log processed in both
orders produces the same bump class and next version. -/
theorem c8_witness :
    fetch_commit_messages
        (Except.ok "a1|Alice|alice@x.io|d1|feat: one\na2|Bob|bob@x.io|d2|fix: two") =
      some [{ message := "feat: one", author := "Alice", email := "alice@x.io", date := "d1" },
            { message := "fix: two", author := "Bob", email := "bob@x.io", date := "d2" }] ∧
    fetch_commit_messages
        (Except.ok "a2|Bob|bob@x.io|d2|fix: two\na1|Alice|alice@x.io|d1|feat: one") =
      some [{ message := "fix: two", author := "Bob", email := "bob@x.io", date := "d2" },
            { message := "feat: one", author := "Alice", email := "alice@x.io", date := "d1" }] ∧
    List.Perm
      [{ message := "feat: one", author := "Alice", email := "alice@x.io", date := "d1" },
       { message := "fix: two", author := "Bob", email := "bob@x.io", date := "d2" }]
      [({ message := "fix: two", author := "Bob", email := "bob@x.io", date := "d2" } : CommitDetail),
       { message := "feat: one", author := "Alice", email := "alice@x.io", date := "d1" }] ∧
    (write_version_details_to_file GithubWorkflow.init (Except.ok "v1.2.3")
        (Except.ok "a1|Alice|alice@x.io|d1|feat: one\na2|Bob|bob@x.io|d2|fix: two") "").map
        (fun vd => (vd.bump_type, vd.next_version)) =
      (write_version_details_to_file GithubWorkflow.init (Except.ok "v1.2.3")
          (Except.ok "a2|Bob|bob@x.io|d2|fix: two\na1|Alice|alice@x.io|d1|feat: one") "").map
        (fun vd => (vd.bump_type, vd.next_version)) := by
  refine ⟨by decide, by decide, by decide, ?_⟩
  exact c8_bump_order_independent GithubWorkflow.init (Except.ok "v1.2.3")
    (Except.ok "a1|Alice|alice@x.io|d1|feat: one\na2|Bob|bob@x.io|d2|fix: two")
    (Except.ok "a2|Bob|bob@x.io|d2|fix: two\na1|Alice|alice@x.io|d1|feat: one") ""
    [{ message := "feat: one", author := "Alice", email := "alice@x.io", date := "d1" },
     { message := "fix: two", author := "Bob", email := "bob@x.io", date := "d2" }]
    [{ message := "fix: two", author := "Bob", email := "bob@x.io", date := "d2" },
     { message := "feat: one", author := "Alice", email := "alice@x.io", date := "d1" }]
    (by decide) (by decide) (by decide)

/-- Claim C10: an empty `pr_labels` input is split on commas into the
one-element list containing the empty string — not the empty list — and that
is what lands in the serialized record. -/
theorem c10_empty_labels_singleton (w : GithubWorkflow)
    (gitTagOutput gitLogOutput : Except CalledProcessError String)
    (vd : VersionDetails)
    (h : write_version_details_to_file w gitTagOutput gitLogOutput "" = some vd) :
    vd.pr_labels = [""] ∧ vd.pr_labels ≠ [] := by
  unfold write_version_details_to_file at h
  cases hcv : get_current_version (fetch_tags gitTagOutput) with
  | none => rw [hcv] at h; exact absurd h (by simp)
  | some cv =>
    rw [hcv] at h
    simp only [Option.bind_eq_bind, Option.some_bind] at h
    cases hcm : fetch_commit_messages gitLogOutput with
    | none => rw [hcm] at h; exact absurd h (by simp)
    | some cms =>
      rw [hcm] at h
      simp only [Option.some_bind] at h
      cases hnv : determine_next_version w cv with
      | none => rw [hnv] at h; exact absurd h (by simp)
      | some nv =>
        rw [hnv] at h
        simp only [Option.some_bind, Option.some.injEq] at h
        subst h
        refine ⟨rfl, ?_⟩
        show pySplitOn ',' "" ≠ []
        decide

/-- Concrete instance of claim C10: a full pipeline run with empty labels
input stores `[""]` in the record. -/
theorem c10_witness :
    write_version_details_to_file GithubWorkflow.init (Except.ok "") (Except.ok "") "" =
      some { current_version := "v0.0.0", next_version := "v0.0.0", bump_type := "None",
             commit_messages := [], tags := [], pr_labels := [""] } ∧
    VersionDetails.pr_labels
        { current_version := "v0.0.0", next_version := "v0.0.0", bump_type := "None",
          commit_messages := [], tags := [], pr_labels := [""] } = [""] ∧
    VersionDetails.pr_labels
        { current_version := "v0.0.0", next_version := "v0.0.0", bump_type := "None",
          commit_messages := [], tags := [], pr_labels := [""] } ≠ [] := by
  have h : write_version_details_to_file GithubWorkflow.init (Except.ok "") (Except.ok "") "" =
      some { current_version := "v0.0.0", next_version := "v0.0.0", bump_type := "None",
             commit_messages := [], tags := [], pr_labels := [""] } := by decide
  exact ⟨h, c10_empty_labels_singleton GithubWorkflow.init (Except.ok "") (Except.ok "") _ h⟩

/-- Claim C4, counterexample: on the spec's own tag set the program does not
skip the malformed tag and return `v2.3.1`; `int('not-a-version')` raises and
`get_current_version` crashes (`none`). -/
theorem c4_counterexample :
    get_current_version ["v1.0.0", "v2.3.1", "not-a-version"] = none ∧
    get_current_version ["v1.0.0", "v2.3.1", "not-a-version"] ≠ some "v2.3.1" := by decide

/-- Claim C4, amended: a tag that does not parse as integers is not excluded —
it makes the whole current-version computation fail with a `ValueError`,
because the sort key of every tag is computed. -/
theorem c4_amended_malformed_tag_crashes (tags : List String) (t : String)
    (ht : t ∈ tags) (hbad : parseTagKey t = none) :
    get_current_version tags = none := by
  have hie : tags.isEmpty = false := by
    cases tags with
    | nil => cases ht
    | cons x xs => rfl
  have hmap : mapOrFail (fun u => (parseTagKey u).map (fun k => (k, u))) tags = none :=
    mapOrFail_eq_none ht (by rw [hbad]; rfl)
  unfold get_current_version
  rw [if_neg (by simp [hie]), hmap]

/-- Concrete instance of the amended claim C4 at the spec's tag set. -/
theorem c4_amended_witness :
    ("not-a-version" ∈ ["v1.0.0", "v2.3.1", "not-a-version"]) ∧
    parseTagKey "not-a-version" = none ∧
    get_current_version ["v1.0.0", "v2.3.1", "not-a-version"] = none :=
  ⟨by decide, by decide,
    c4_amended_malformed_tag_crashes ["v1.0.0", "v2.3.1", "not-a-version"]
      "not-a-version" (by decide) (by decide)⟩

/-- Claim C5: when every tag parses as exactly three integers,
`get_current_version` returns a member of the tag list whose parsed key is
lexicographically greatest among all the tags' keys; on the empty list it
returns `v0.0.0`. -/
theorem c5_current_version_is_max (tags : List String)
    (hvalid : tags.all validTag = true) :
    (tags = [] → get_current_version tags = some "v0.0.0") ∧
    (tags ≠ [] → ∃ best, get_current_version tags = some best ∧ best ∈ tags ∧
      ∀ t ∈ tags, ∀ kt kb, parseTagKey t = some kt → parseTagKey best = some kb →
        listLexLe kt kb = true) := by
  constructor
  · rintro rfl; rfl
  · intro hne
    have hsome : ∀ t ∈ tags, ((parseTagKey t).map (fun k => (k, t))).isSome = true := by
      intro t ht
      have hv := List.all_eq_true.1 hvalid t ht
      unfold validTag at hv
      cases hpt : parseTagKey t with
      | none => rw [hpt] at hv; cases hv
      | some k => rfl
    obtain ⟨keyed, hkeyed⟩ := mapOrFail_isSome hsome
    have htotal : ∀ p q : List Int × String,
        listLexLe p.1 q.1 = true ∨ listLexLe q.1 p.1 = true :=
      fun p q => listLexLe_total p.1 q.1
    have htrans : ∀ p q r : List Int × String, listLexLe p.1 q.1 = true →
        listLexLe q.1 r.1 = true → listLexLe p.1 r.1 = true :=
      fun _ _ _ h1 h2 => listLexLe_trans h1 h2
    have hpair := pairwise_pySorted (fun p q : List Int × String => listLexLe p.1 q.1)
      htotal htrans keyed
    have hperm := pySorted_perm (fun p q : List Int × String => listLexLe p.1 q.1) keyed
    have hkne : keyed ≠ [] := mapOrFail_ne_nil hkeyed hne
    have hsne : pySorted (fun p q : List Int × String => listLexLe p.1 q.1) keyed ≠ [] := by
      intro h0
      rw [h0] at hperm
      exact hkne hperm.symm.eq_nil
    obtain ⟨m, hm⟩ := Option.isSome_iff_exists.1 (List.getLast?_isSome.2 hsne)
    have hie : tags.isEmpty = false := by
      cases tags with
      | nil => exact absurd rfl hne
      | cons x xs => rfl
    have hgcv : get_current_version tags = some m.2 := by
      unfold get_current_version
      rw [if_neg (by simp [hie]), hkeyed]
      show ((pySorted (fun p q : List Int × String => listLexLe p.1 q.1) keyed).getLast?).map
        Prod.snd = some m.2
      rw [hm]
      rfl
    have hmk : m ∈ keyed := hperm.mem_iff.1 (List.mem_of_getLast?_eq_some hm)
    obtain ⟨tbest, htbest, hftbest⟩ := mapOrFail_mem_rev hkeyed m hmk
    have hbest : m.2 = tbest ∧ parseTagKey tbest = some m.1 := by
      cases hpt : parseTagKey tbest with
      | none => rw [hpt] at hftbest; cases hftbest
      | some k =>
        rw [hpt, Option.map_some'] at hftbest
        have hkm : (k, tbest) = m := Option.some.inj hftbest
        constructor
        · rw [← hkm]
        · rw [← hkm]
    refine ⟨m.2, hgcv, by rw [hbest.1]; exact htbest, ?_⟩
    intro t ht kt kb hkt hkb
    have hkb' : kb = m.1 := by
      rw [hbest.1, hbest.2] at hkb
      exact (Option.some.inj hkb).symm
    have hft : (parseTagKey t).map (fun k => (k, t)) = some (kt, t) := by
      rw [hkt]; rfl
    obtain ⟨y, hy, hyin⟩ := mapOrFail_forall_mem hkeyed t ht
    have hyval : (kt, t) = y := Option.some.inj (hft.symm.trans hy)
    rw [← hyval] at hyin
    have hmem : (kt, t) ∈ pySorted (fun p q : List Int × String => listLexLe p.1 q.1) keyed :=
      hperm.mem_iff.2 hyin
    rcases pairwise_getLast_le hpair hm (kt, t) hmem with heq | hle2
    · rw [hkb', ← heq]
      exact listLexLe_refl kt
    · rw [hkb']
      exact hle2

/-- Concrete instance of claim C5: on `["v1.0.0", "v2.3.1"]` the returned
current version is a member whose key dominates both keys. -/
theorem c5_witness :
    (["v1.0.0", "v2.3.1"].all validTag = true) ∧
    (["v1.0.0", "v2.3.1"] ≠ ([] : List String)) ∧
    (∃ best, get_current_version ["v1.0.0", "v2.3.1"] = some best ∧
      best ∈ ["v1.0.0", "v2.3.1"] ∧
      ∀ t ∈ ["v1.0.0", "v2.3.1"], ∀ kt kb, parseTagKey t = some kt →
        parseTagKey best = some kb → listLexLe kt kb = true) :=
  ⟨by decide, by decide,
    (c5_current_version_is_max ["v1.0.0", "v2.3.1"] (by decide)).2 (by decide)⟩
